import Mathlib

/-!
Verification of the closure-table maintenance code in
`closuretree/models.py` (django-closuretree).

The relational store is shallowly embedded: the dynamically generated
`<Model>Closure` table becomes a list of `Row` values (the `unique_together
(parent, child)` constraint is enforced by the dedup-insert operations,
mirroring the database unique key), and the node table becomes a list of
`PNode` values.  Python integer primary keys are modelled as `Nat`; the
truthiness test `if parent_id:` on an integer id is `none`-or-zero.
The closure model additionally has Django's implicit auto primary key;
that surrogate id is only ever read by `is_descendant_of`
(`.exclude(pk=self.pk)`), so it is modelled there via the richer `IRow`.
-/

namespace ClosureTree

/-- A closure-table row `(parent_id, child_id, depth)` of the generated
`<Model>Closure` model; unique key `(parent, child)`. -/
structure Row where
  parent : Nat
  child : Nat
  depth : Nat
deriving DecidableEq, Repr

/-- The closure table, as the list of its rows. -/
abbrev DB := List Row

/-- The `unique_together (parent, child)` key of a row. -/
def rowKey (r : Row) : Nat × Nat := (r.parent, r.child)

/-- Boolean test that two rows collide on the unique key. -/
def sameKey (s r : Row) : Bool := s.parent == r.parent && s.child == r.child

/-- A persisted node: primary key, FK id of the `parent` field, `level`. -/
structure PNode where
  pk : Nat
  parent_id : Option Nat
  level : Nat
deriving DecidableEq, Repr

/-- Python truthiness of an (optional) integer parent id: `None` and `0`
are falsy.  This is the test `if parent_id:` in `_closure_createlink`. -/
def truthy : Option Nat → Bool
  | none => false
  | some p => p != 0

/-- Dedup (insert-if-absent) insert of one row: `INSERT OR IGNORE` /
`INSERT IGNORE` / `ON CONFLICT DO NOTHING` semantics on the
`(parent, child)` unique key. -/
def insertIgnore (db : DB) (r : Row) : DB :=
  if db.any (fun s => sameKey s r) then db else db ++ [r]

/-- Dedup bulk insert of a list of rows. -/
def insertIgnoreAll (db : DB) (rs : List Row) : DB :=
  rs.foldl insertIgnore db

/-- Plain `INSERT` of one row (the branch taken for a database vendor other
than sqlite/mysql/postgresql): a `(parent, child)` unique-key conflict is a
database integrity error. -/
def insertPlain (db : DB) (r : Row) : Except Unit DB :=
  if db.any (fun s => sameKey s r) then .error () else .ok (db ++ [r])

/-- Plain bulk insert; stops with an error at the first key conflict. -/
def insertPlainAll (db : DB) (rs : List Row) : Except Unit DB :=
  rs.foldlM insertPlain db

/-- The database vendor, branched on in `_closure_createlink`. -/
inductive Vendor
  | sqlite
  | mysql
  | postgresql
  | other
deriving DecidableEq, Repr

/-- Whether the vendor branch produces an ignore-on-conflict insert
(`sqlite`, `mysql`, `postgresql`) or a plain `INSERT` (any other vendor). -/
def Vendor.dedup : Vendor → Bool
  | .other => false
  | _ => true

/-- The row set submitted for insertion by `_closure_createlink`:
`selects` starts with `SELECT 0, pk, pk` (the self-link, columns
`(depth, child_id, parent_id)`), and, when `parent_id` is truthy,
appends `SELECT depth + 1, pk, parent_id FROM closure WHERE child_id =
parent_id`, i.e. one row `(ancestor, pk, d + 1)` for every stored row
`(ancestor, parent_id, d)`.  The SQL `UNION` dedup is subsumed by the
key-dedup of the insert itself. -/
def createlink_rows (pk : Nat) (parent_id : Option Nat) (db : DB) : List Row :=
  let selfRow : Row := ⟨pk, pk, 0⟩
  if truthy parent_id then
    match parent_id with
    | some p =>
        selfRow :: (db.filter (fun r => r.child == p)).map
          (fun r => ⟨r.parent, pk, r.depth + 1⟩)
    | none => [selfRow]
  else
    [selfRow]

/-- `_closure_createlink`: computes the row set and executes the
vendor-dependent `INSERT ... SELECT ... UNION SELECT ...` statement. -/
def closure_createlink (v : Vendor) (pk : Nat) (parent_id : Option Nat)
    (db : DB) : Except Unit DB :=
  let rows := createlink_rows pk parent_id db
  if v.dedup then .ok (insertIgnoreAll db rows) else insertPlainAll db rows

/-- `_closure_deletelink`: delete the closure rows with `child_id = pk`. -/
def closure_deletelink (db : DB) (pk : Nat) : DB :=
  db.filter (fun r => r.child != pk)

/-- `Model.objects.get(pk = p)`-style lookup in the node table. -/
def findNode (nodes : List PNode) (p : Nat) : Option PNode :=
  nodes.find? (fun n => n.pk == p)

/-- `getattr(self, parent_attr)` on the FK: resolving a set-but-dangling
parent id raises `ObjectDoesNotExist` (`.error ()`); an unset (`None`)
id resolves to `None`. -/
def resolveParentAttr (nodes : List PNode) (parent_id : Option Nat) :
    Except Unit (Option PNode) :=
  match parent_id with
  | none => .ok none
  | some p =>
      match findNode nodes p with
      | some n => .ok (some n)
      | none => .error ()

/-- `_closure_parent`: wraps the attribute access in
`try ... except ObjectDoesNotExist: pass`, so a dangling reference yields
`None` instead of propagating the exception. -/
def closure_parent (nodes : List PNode) (parent_id : Option Nat) :
    Option PNode :=
  match resolveParentAttr nodes parent_id with
  | .ok r => r
  | .error _ => none

/-- Stable insertion into a level-sorted list (strict comparison keeps the
earlier element first among equal levels). -/
def insertByLevel (n : PNode) : List PNode → List PNode
  | [] => [n]
  | m :: ms => if n.level < m.level then n :: m :: ms else m :: insertByLevel n ms

/-- `objects.order_by('level')`: stable ascending sort by `level`. -/
def sortByLevel (ns : List PNode) : List PNode :=
  ns.foldl (fun acc n => insertByLevel n acc) []

/-- `rebuildtable`: delete every closure row, then run `_closure_createlink`
for each node in ascending `level` order. -/
def rebuildtable (v : Vendor) (nodes : List PNode) : Except Unit DB :=
  (sortByLevel nodes).foldlM
    (fun db n => closure_createlink v n.pk n.parent_id db) []

/-- The `leveldiff` computed by `_closure_update_links`:
`(new_parent.level if new_parent is not None else 0) -
 (old_parent.level if old_parent is not None else 0)`. -/
def closure_leveldiff (new_parent old_parent : Option PNode) : Int :=
  (match new_parent with
   | some p => (p.level : Int)
   | none => 0) -
  (match old_parent with
   | some p => (p.level : Int)
   | none => 0)

/-- `get_descendants(include_self=False)` read from the closure table:
the nodes referenced by rows with `parent = pk`, excluding `pk` itself. -/
def get_descendant_nodes (nodes : List PNode) (db : DB) (pk : Nat) :
    List PNode :=
  ((db.filter (fun r => r.parent == pk && r.child != pk)).filterMap
    (fun r => findNode nodes r.child))

/-- `_closure_update_links(self)`: the Python method computes `new_parent`,
the (lazily evaluated) descendant querysets, `cached_subtree` and
`leveldiff`, and then executes
`subtree_without_self.update(level=F('level') + leveldiff)`.
The name `F` is never imported or defined in `models.py`
(the imports are `ObjectDoesNotExist`, `models`, `connection`, `ModelBase`,
the three signals, `receiver`, `with_metaclass`, `managers`, `sys`,
`uuid`), so evaluating the argument of `update` raises `NameError` before
any closure row or level is written: the call always fails with the node
table and closure table unchanged. -/
def closure_update_links (nodes : List PNode) (db : DB) (self_pk : Nat)
    (self_parent_id : Option Nat) (old_parent : Option PNode) :
    Except Unit (List PNode × DB) :=
  let new_parent := closure_parent nodes self_parent_id
  let subtree_without_self := sortByLevel (get_descendant_nodes nodes db self_pk)
  let cached_subtree := self_pk :: subtree_without_self.map (fun n => n.pk)
  let leveldiff := closure_leveldiff new_parent old_parent
  -- `F('level')` : unbound name `F` => NameError, nothing is written.
  let _ := cached_subtree
  let _ := leveldiff
  .error ()

/-- The per-instance change-tracker state touched by `__setattr__`:
`pk` is the node's persisted identity (`none` while unsaved),
`parent_attr` is `none` while the `parent_id` attribute has not yet been
set on the instance (mid-`__init__` first assignment) and `some v` once it
holds the id value `v`, and `old_parent` is the captured
`_closure_old_parent` (`none` while unobserved, i.e.
`_closure_change_check()` false). -/
structure TrackedNode where
  pk : Option Nat
  parent_attr : Option (Option Nat)
  old_parent : Option (Option PNode)
deriving DecidableEq, Repr

/-- `_closure_change_check`: `hasattr(self, "_closure_old_parent")`. -/
def closure_change_check (n : TrackedNode) : Bool :=
  n.old_parent.isSome

/-- `__setattr__` on the sentinel parent attribute, with the assigned value
already resolved to an id (`value.pk` for an object, the raw value for the
`_id` attribute, `none` for `None`).  The guard is: the `parent_id`
attribute is already set (and not deferred), `_closure_change_check()` is
false, and the currently stored id differs from the new one; then
`_closure_change_init()` stores `self._closure_parent` (resolved with the
exception-swallowing `closure_parent`) before the assignment happens. -/
def closure_setattr_parent (nodes : List PNode) (n : TrackedNode)
    (obj_id : Option Nat) : TrackedNode :=
  match n.parent_attr with
  | none => { n with parent_attr := some obj_id }
  | some current =>
      if !closure_change_check n && current != obj_id then
        { n with
            old_parent := some (closure_parent nodes current),
            parent_attr := some obj_id }
      else
        { n with parent_attr := some obj_id }

/-- A closure row together with the implicit auto primary key (`id`) Django
gives the generated closure model; `is_descendant_of` reads it through
`.exclude(pk=self.pk)`. -/
structure IRow where
  rid : Nat
  parent : Nat
  child : Nat
  depth : Nat
deriving DecidableEq, Repr

/-- `is_descendant_of(self, other, include_self)`: equal pks return
`include_self`; otherwise
`closure.objects.filter(parent=other, child=self).exclude(pk=self.pk)
.exists()` — note that the `exclude` is on the closure row's own primary
key, and that `depth` is never examined. -/
def is_descendant_of (closure : List IRow) (self_pk other_pk : Nat)
    (include_self : Bool) : Bool :=
  if other_pk == self_pk then
    include_self
  else
    closure.any (fun r =>
      r.parent == other_pk && r.child == self_pk && r.rid != self_pk)

/-- A preloaded descendant as `prepopulate` sees it: its pk and its
`_closure_parent_pk`. -/
structure DNode where
  pk : Nat
  parent_pk : Option Nat
deriving DecidableEq, Repr

/-- The parent-pk-to-children adjacency built by `prepopulate`: one entry
per `hashobjs` key, holding the `_cached_children` pks in append order. -/
abbrev Adjacency := List (Nat × List Nat)

/-- First-occurrence key order of a Python dict built from an insertion
sequence (later duplicates overwrite the value but keep the key position). -/
def dedupKeys (ks : List Nat) : List Nat :=
  ks.foldl (fun acc k => if k ∈ acc then acc else acc ++ [k]) []

/-- The key set of `hashobjs = dict([(x.pk, x) for x in objs] +
[(self.pk, self)])`. -/
def hashKeys (self_pk : Nat) (objs : List DNode) : List Nat :=
  dedupKeys (objs.map (fun d => d.pk) ++ [self_pk])

/-- `hashobjs[p]._cached_children.append(c)`: append `c` to the entry with
key `p`. -/
def appendChild (acc : Adjacency) (p c : Nat) : Adjacency :=
  acc.map (fun e => if e.1 == p then (e.1, e.2 ++ [c]) else e)

/-- The second loop of `prepopulate`: for each descendant in supplied
order, `assert descendant._closure_parent_pk in hashobjs` (an unmatched —
or `None` — parent pk raises `AssertionError`, modelled as `.error ()`),
then append the descendant under its parent's entry. -/
def prepopulate_go (acc : Adjacency) : List DNode → Except Unit Adjacency
  | [] => .ok acc
  | d :: ds =>
      match d.parent_pk with
      | some p =>
          if acc.any (fun e => e.1 == p) then
            prepopulate_go (appendChild acc p d.pk) ds
          else
            .error ()
      | none => .error ()

/-- `prepopulate(self, queryset)`: build `hashobjs`, give every value an
empty `_cached_children`, then run the append loop. -/
def prepopulate (self_pk : Nat) (objs : List DNode) : Except Unit Adjacency :=
  prepopulate_go ((hashKeys self_pk objs).map (fun k => (k, ([] : List Nat))))
    objs

/-- The row set as claim C1 words it: the self-link together with, for
every closure row `(ancestor, parent, d)` whose child equals the node's
parent id, the row `(ancestor, node, d + 1)`; keyed solely on the parent id
being null. -/
def c1_claim_rowset (pk : Nat) (parent_id : Option Nat) (db : DB) :
    List Row :=
  match parent_id with
  | none => [⟨pk, pk, 0⟩]
  | some p =>
      ⟨pk, pk, 0⟩ :: (db.filter (fun r => r.child == p)).map
        (fun r => ⟨r.parent, pk, r.depth + 1⟩)

/-- Claim C1 amended: a parent id of `0` is falsy in Python, so it is
treated exactly like a null parent id (self-link only). -/
def c1_amended_rowset (pk : Nat) (parent_id : Option Nat) (db : DB) :
    List Row :=
  match parent_id with
  | none => [⟨pk, pk, 0⟩]
  | some p =>
      if p = 0 then [⟨pk, pk, 0⟩]
      else
        ⟨pk, pk, 0⟩ :: (db.filter (fun r => r.child == p)).map
          (fun r => ⟨r.parent, pk, r.depth + 1⟩)

/-- The level delta as claim C3 (and the spec) words it:
`(newParent.level + 1, or 0 if the new parent is absent)` minus the node's
old level. -/
def c3_claim_delta (new_parent : Option PNode) (old_node_level : Nat) : Int :=
  (match new_parent with
   | some p => (p.level : Int) + 1
   | none => 0) - (old_node_level : Int)

/-- The key list of an adjacency accumulator. -/
def adjKeys (acc : Adjacency) : List Nat :=
  acc.map (fun e => e.1)

/-- `c` is recorded as a child under key `p` in the adjacency map. -/
def childUnder (acc : Adjacency) (p c : Nat) : Prop :=
  ∃ e ∈ acc, e.1 = p ∧ c ∈ e.2

/-! Helper lemmas about the dedup insert. -/

theorem sameKey_iff (s r : Row) : sameKey s r = true ↔ rowKey s = rowKey r := by
  simp [sameKey, rowKey, Prod.ext_iff]

theorem any_sameKey_iff (db : DB) (r : Row) :
    db.any (fun s => sameKey s r) = true ↔ ∃ s ∈ db, rowKey s = rowKey r := by
  simp [List.any_eq_true, sameKey_iff]

theorem mem_insertIgnore {db : DB} {s : Row} (r : Row) (h : s ∈ db) :
    s ∈ insertIgnore db r := by
  unfold insertIgnore
  split
  · exact h
  · exact List.mem_append_left _ h

theorem mem_insertIgnoreAll {db : DB} {s : Row} (rs : List Row) (h : s ∈ db) :
    s ∈ insertIgnoreAll db rs := by
  induction rs generalizing db with
  | nil => exact h
  | cons a as ih =>
      rw [insertIgnoreAll, List.foldl_cons]
      exact ih (mem_insertIgnore a h)

theorem exists_key_insertIgnore (db : DB) (r : Row) :
    ∃ s ∈ insertIgnore db r, rowKey s = rowKey r := by
  unfold insertIgnore
  split
  case isTrue h => exact (any_sameKey_iff db r).mp h
  case isFalse h =>
    exact ⟨r, List.mem_append_right _ (List.mem_singleton.mpr rfl), rfl⟩

theorem exists_key_insertIgnoreAll {r : Row} (db : DB) (rs : List Row)
    (h : r ∈ rs) :
    ∃ s ∈ insertIgnoreAll db rs, rowKey s = rowKey r := by
  induction rs generalizing db with
  | nil => cases h
  | cons a as ih =>
      rw [insertIgnoreAll, List.foldl_cons]
      rcases List.mem_cons.mp h with h1 | h2
      · subst h1
        obtain ⟨s, hs, hk⟩ := exists_key_insertIgnore db r
        exact ⟨s, mem_insertIgnoreAll as hs, hk⟩
      · exact ih (insertIgnore db a) h2

theorem insertIgnoreAll_eq_self {db : DB} {rs : List Row}
    (h : ∀ r ∈ rs, ∃ s ∈ db, rowKey s = rowKey r) :
    insertIgnoreAll db rs = db := by
  induction rs with
  | nil => rfl
  | cons a as ih =>
      have ha : insertIgnore db a = db := by
        unfold insertIgnore
        rw [if_pos ((any_sameKey_iff db a).mpr (h a (List.mem_cons_self a as)))]
      rw [insertIgnoreAll, List.foldl_cons, ha]
      exact ih (fun r hr => h r (List.mem_cons_of_mem a hr))

/-- Claim C1, counterexample: for a node with pk 1 whose parent id is `0`
(non-null) and a store holding the parent's self-link `(0, 0, 0)`, the
claim's row set is `{(1,1,0), (0,1,1)}`, but `_closure_createlink` submits
only the self-link, because `if parent_id:` is false for the integer 0. -/
theorem c1_counterexample :
    createlink_rows 1 (some 0) [⟨0, 0, 0⟩] = [⟨1, 1, 0⟩] ∧
    c1_claim_rowset 1 (some 0) [⟨0, 0, 0⟩] = [⟨1, 1, 0⟩, ⟨0, 1, 1⟩] ∧
    createlink_rows 1 (some 0) [⟨0, 0, 0⟩] ≠
      c1_claim_rowset 1 (some 0) [⟨0, 0, 0⟩] := by
  exact ⟨rfl, rfl, by decide⟩

/-- Claim C1 (amended): for every persisted node, `_closure_createlink`
performs a dedup bulk insert of exactly the self-link `(node, node, 0)`
together with, for every closure row `(ancestor, parent, d)` whose child
equals the node's parent id, the row `(ancestor, node, d + 1)` — except
that a parent id that is null **or falsy (0)** yields the self-link only. -/
theorem c1_createlink_rowset (v : Vendor) (pk : Nat) (parent_id : Option Nat)
    (db : DB) (hv : v.dedup = true) :
    createlink_rows pk parent_id db = c1_amended_rowset pk parent_id db ∧
    closure_createlink v pk parent_id db =
      .ok (insertIgnoreAll db (c1_amended_rowset pk parent_id db)) := by
  have h1 : createlink_rows pk parent_id db = c1_amended_rowset pk parent_id db := by
    cases parent_id with
    | none => rfl
    | some p =>
        by_cases hp : p = 0
        · subst hp; rfl
        · simp [createlink_rows, c1_amended_rowset, truthy, hp]
  refine ⟨h1, ?_⟩
  simp [closure_createlink, hv, h1]

/-- Witness for `c1_createlink_rowset` at a concrete input. -/
theorem c1_createlink_rowset_witness :
    createlink_rows 2 (some 1) [⟨1, 1, 0⟩] =
      c1_amended_rowset 2 (some 1) [⟨1, 1, 0⟩] ∧
    closure_createlink Vendor.sqlite 2 (some 1) [⟨1, 1, 0⟩] =
      .ok (insertIgnoreAll [⟨1, 1, 0⟩] (c1_amended_rowset 2 (some 1) [⟨1, 1, 0⟩])) :=
  c1_createlink_rowset Vendor.sqlite 2 (some 1) [⟨1, 1, 0⟩] rfl

/-- Claim C2: the reparent update cannot produce the rows a rebuild would.
With final parent pointers `1 root, 2 under 1, 3 under 1` (node 3 just
moved from 2 to 1) and the still-stale closure rows of the old tree,
`_closure_update_links` fails (the name `F` in
`subtree_without_self.update(level=F('level') + leveldiff)` is unbound in
`models.py`, raising `NameError` before any row is deleted or written),
so the subtree rows of node 3 stay `{(3,3,0), (2,3,1), (1,3,2)}`, while
`rebuildtable` produces `{(3,3,0), (1,3,1)}` for node 3. -/
theorem c2_reparent_diverges :
    closure_update_links
      [⟨1, none, 0⟩, ⟨2, some 1, 1⟩, ⟨3, some 1, 1⟩]
      [⟨1, 1, 0⟩, ⟨2, 2, 0⟩, ⟨1, 2, 1⟩, ⟨3, 3, 0⟩, ⟨2, 3, 1⟩, ⟨1, 3, 2⟩]
      3 (some 1) (some ⟨2, some 1, 1⟩) = .error () ∧
    rebuildtable Vendor.sqlite [⟨1, none, 0⟩, ⟨2, some 1, 1⟩, ⟨3, some 1, 1⟩] =
      .ok [⟨1, 1, 0⟩, ⟨2, 2, 0⟩, ⟨1, 2, 1⟩, ⟨3, 3, 0⟩, ⟨1, 3, 1⟩] ∧
    List.filter (fun (r : Row) => r.child == 3)
      ([⟨1, 1, 0⟩, ⟨2, 2, 0⟩, ⟨1, 2, 1⟩, ⟨3, 3, 0⟩, ⟨2, 3, 1⟩, ⟨1, 3, 2⟩] : DB) ≠
    List.filter (fun (r : Row) => r.child == 3)
      ([⟨1, 1, 0⟩, ⟨2, 2, 0⟩, ⟨1, 2, 1⟩, ⟨3, 3, 0⟩, ⟨1, 3, 1⟩] : DB) := by
  exact ⟨rfl, rfl, by decide⟩

/-- Claim C3: the level delta computed by `_closure_update_links` is
`(new_parent.level or 0) - (old_parent.level or 0)`, not the claimed
`(new_parent.level + 1 or 0) - oldLevel(node)`.  For a node that was a
root (old parent absent, old level 0) moved under a root parent `P` with
level 0, the code computes `0` where the claim requires `1`. -/
theorem c3_leveldiff_mismatch :
    closure_leveldiff (some ⟨1, none, 0⟩) none = 0 ∧
    c3_claim_delta (some ⟨1, none, 0⟩) 0 = 1 ∧
    closure_leveldiff (some ⟨1, none, 0⟩) none ≠
      c3_claim_delta (some ⟨1, none, 0⟩) 0 := by
  exact ⟨rfl, rfl, by decide⟩

/-- Claim C4, counterexample: on a backend other than sqlite, mysql and
postgresql the insert is a plain `INSERT`, so the second identical
`_closure_createlink` call hits the `(parent, child)` unique key and
raises instead of being treated as success. -/
theorem c4_counterexample :
    closure_createlink Vendor.other 1 none [] = .ok [⟨1, 1, 0⟩] ∧
    closure_createlink Vendor.other 1 none [⟨1, 1, 0⟩] = .error () := by
  exact ⟨rfl, rfl⟩

/-- Claim C4 (amended): on the dedup backends (sqlite, mysql, postgresql),
`_closure_createlink` raises no error, and a second caller who computed
the same row set from the same observed closure state and applies it
after the first caller changes nothing: the duplicate-key inserts are
silently skipped, so the final row set equals that of a single call. -/
theorem c4_createlink_idempotent (v : Vendor) (pk : Nat)
    (parent_id : Option Nat) (db : DB) (hv : v.dedup = true) :
    closure_createlink v pk parent_id db =
      .ok (insertIgnoreAll db (createlink_rows pk parent_id db)) ∧
    insertIgnoreAll (insertIgnoreAll db (createlink_rows pk parent_id db))
        (createlink_rows pk parent_id db) =
      insertIgnoreAll db (createlink_rows pk parent_id db) := by
  constructor
  · simp [closure_createlink, hv]
  · exact insertIgnoreAll_eq_self
      (fun r hr => exists_key_insertIgnoreAll db _ hr)

/-- Witness for `c4_createlink_idempotent` at a concrete input. -/
theorem c4_createlink_idempotent_witness :
    closure_createlink Vendor.sqlite 1 none [] =
      .ok (insertIgnoreAll [] (createlink_rows 1 none [])) ∧
    insertIgnoreAll (insertIgnoreAll [] (createlink_rows 1 none []))
        (createlink_rows 1 none []) =
      insertIgnoreAll [] (createlink_rows 1 none []) :=
  c4_createlink_idempotent Vendor.sqlite 1 none [] rfl

/-- Claim C7: `_closure_deletelink` removes exactly the closure rows whose
child is the node: a row survives the delete iff it was present and its
child differs from the node's pk (so rows with `parent = pk` but a
different child are untouched). -/
theorem c7_deletelink_exact (db : DB) (pk : Nat) (r : Row) :
    r ∈ closure_deletelink db pk ↔ r ∈ db ∧ r.child ≠ pk := by
  simp [closure_deletelink, List.mem_filter]

/-- Claim C8, counterexample: with an empty node table, resolving the set
parent id 5 raises `ObjectDoesNotExist` inside the attribute access, but
`_closure_parent` catches it (`except ObjectDoesNotExist: pass`) and
returns `None` — the failure is swallowed, not surfaced. -/
theorem c8_counterexample :
    resolveParentAttr [] (some 5) = .error () ∧
    closure_parent [] (some 5) = none := by
  exact ⟨rfl, rfl⟩

/-- Claim C8 (amended): during closure maintenance a stored parent
reference that does not resolve to an existing node does **not** surface
an error: `_closure_parent` swallows the `ObjectDoesNotExist` and treats
the parent as absent, while an existing reference resolves normally. -/
theorem c8_parent_swallowed (nodes : List PNode) (p : Nat) :
    (findNode nodes p = none → closure_parent nodes (some p) = none) ∧
    (∀ n, findNode nodes p = some n → closure_parent nodes (some p) = some n) ∧
    closure_parent nodes none = none := by
  refine ⟨?_, ?_, rfl⟩
  · intro h
    simp [closure_parent, resolveParentAttr, h]
  · intro n h
    simp [closure_parent, resolveParentAttr, h]

/-- Witness for `c8_parent_swallowed` at a concrete input. -/
theorem c8_parent_swallowed_witness :
    closure_parent [⟨1, none, 0⟩] (some 2) = none :=
  (c8_parent_swallowed [⟨1, none, 0⟩] 2).1 rfl

/-- Claim C10: a node with a non-null parent id but no closure row for
that parent gets exactly its self-link, silently: the ancestor `SELECT`
returns nothing, no error is raised, and nothing beyond the self-link is
added. -/
theorem c10_missing_parent (v : Vendor) (pk p : Nat) (db : DB)
    (hv : v.dedup = true) (h : ∀ r ∈ db, r.child ≠ p) :
    createlink_rows pk (some p) db = [⟨pk, pk, 0⟩] ∧
    closure_createlink v pk (some p) db =
      .ok (insertIgnoreAll db [⟨pk, pk, 0⟩]) ∧
    ∀ r ∈ insertIgnoreAll db [⟨pk, pk, 0⟩], r ∈ db ∨ r = ⟨pk, pk, 0⟩ := by
  have hrows : createlink_rows pk (some p) db = [⟨pk, pk, 0⟩] := by
    by_cases hp : p = 0
    · subst hp; simp [createlink_rows, truthy]
    · have hfilter : db.filter (fun r => r.child == p) = [] := by
        rw [List.filter_eq_nil_iff]
        intro r hr
        simp [h r hr]
      simp [createlink_rows, truthy, hp, hfilter]
  refine ⟨hrows, ?_, ?_⟩
  · simp [closure_createlink, hv, hrows]
  · intro r hr
    rw [insertIgnoreAll, List.foldl_cons, List.foldl_nil] at hr
    unfold insertIgnore at hr
    split at hr
    · exact Or.inl hr
    · rcases List.mem_append.mp hr with h1 | h1
      · exact Or.inl h1
      · exact Or.inr (List.mem_singleton.mp h1)

/-- Witness for `c10_missing_parent` at a concrete input. -/
theorem c10_missing_parent_witness :
    createlink_rows 1 (some 2) [⟨3, 3, 0⟩] = [⟨1, 1, 0⟩] ∧
    closure_createlink Vendor.sqlite 1 (some 2) [⟨3, 3, 0⟩] =
      .ok (insertIgnoreAll [⟨3, 3, 0⟩] [⟨1, 1, 0⟩]) :=
  ⟨(c10_missing_parent Vendor.sqlite 1 2 [⟨3, 3, 0⟩] rfl (by decide)).1,
   (c10_missing_parent Vendor.sqlite 1 2 [⟨3, 3, 0⟩] rfl (by decide)).2.1⟩

/-- Claim C5, counterexample: a fresh, unsaved node (`pk = none`) whose
`parent_id` attribute is already set (to `None`, as `__init__` leaves it)
**does** transition to Captured when its parent is assigned a different
value: `__setattr__` only checks that the id attribute exists, never that
the node has a persisted identity. -/
theorem c5_counterexample :
    closure_change_check ⟨none, some none, none⟩ = false ∧
    (⟨none, some none, none⟩ : TrackedNode).pk = none ∧
    closure_change_check
      (closure_setattr_parent [] ⟨none, some none, none⟩ (some 5)) = true := by
  exact ⟨rfl, rfl, rfl⟩

/-- Claim C5 (amended): the tracker transitions from Unobserved to
Captured (storing the resolved old parent) exactly when the parent id
attribute is already set on the instance, no old value is stored yet, and
the newly assigned value resolves to a different id — irrespective of
whether the node is persisted.  A first assignment (attribute still
unset, i.e. during construction) never transitions, re-assigning the
stored value is a no-op, and a captured value is never overwritten. -/
theorem c5_tracker_transitions (nodes : List PNode) (n : TrackedNode)
    (v : Option Nat) :
    (n.parent_attr = none →
      (closure_setattr_parent nodes n v).old_parent = n.old_parent) ∧
    (n.parent_attr = some v → closure_setattr_parent nodes n v = n) ∧
    (∀ c, n.parent_attr = some c → c ≠ v → n.old_parent = none →
      (closure_setattr_parent nodes n v).old_parent =
        some (closure_parent nodes c)) ∧
    (∀ o, n.old_parent = some o →
      (closure_setattr_parent nodes n v).old_parent = some o) := by
  obtain ⟨pk, pa, op⟩ := n
  refine ⟨?_, ?_, ?_, ?_⟩
  · intro h
    subst h
    rfl
  · intro h
    subst h
    simp [closure_setattr_parent, closure_change_check]
  · intro c hc hne hop
    subst hc
    subst hop
    simp only [closure_setattr_parent, closure_change_check, Option.isSome_none,
      Bool.not_false, Bool.true_and]
    rw [if_pos (bne_iff_ne.mpr hne)]
  · intro o ho
    subst ho
    cases pa with
    | none => rfl
    | some c =>
        simp [closure_setattr_parent, closure_change_check]

/-- Witness for `c5_tracker_transitions` at a concrete input: an already
observed (saved or not) node with stored parent id `None`, assigned parent
id 2, captures old parent `None`. -/
theorem c5_tracker_transitions_witness :
    (closure_setattr_parent [] ⟨some 1, some none, none⟩ (some 2)).old_parent =
      some (closure_parent [] none) :=
  (c5_tracker_transitions [] ⟨some 1, some none, none⟩ (some 2)).2.2.1 none rfl
    (by decide) rfl

/-- Claim C6, counterexample: the store holds the single closure row
`(parent 1, child 3, depth 1)` whose surrogate row id happens to be 3 =
the node's pk; the claim then demands `is_descendant_of(3, 1) = true`,
but the code's `.exclude(pk=self.pk)` discards that row and returns
false — the result depends on the closure row's own primary key. -/
theorem c6_counterexample :
    is_descendant_of [⟨3, 1, 3, 1⟩] 3 1 false = false ∧
    ∃ r ∈ [(⟨3, 1, 3, 1⟩ : IRow)],
      r.parent = 1 ∧ r.child = 3 ∧ 0 < r.depth := by
  refine ⟨rfl, ⟨3, 1, 3, 1⟩, List.mem_singleton.mpr rfl, rfl, rfl, Nat.zero_lt_one⟩

/-- Claim C6 (amended): in a store whose depth-0 rows are exactly the
self-links, `is_descendant_of(N, A, includeSelf)` is true iff `A = N` and
`includeSelf`, or some closure row `(A, N, d)` with `d > 0` exists **whose
surrogate row id differs from N's pk** (the code excludes rows whose own
primary key equals N's pk). -/
theorem c6_is_descendant_iff (closure : List IRow) (self_pk other_pk : Nat)
    (inc : Bool)
    (hwf : ∀ r ∈ closure, r.depth = 0 ↔ r.parent = r.child) :
    is_descendant_of closure self_pk other_pk inc = true ↔
      (other_pk = self_pk ∧ inc = true) ∨
      ∃ r ∈ closure, r.parent = other_pk ∧ r.child = self_pk ∧
        0 < r.depth ∧ r.rid ≠ self_pk := by
  unfold is_descendant_of
  by_cases h : other_pk = self_pk
  · rw [if_pos (by simpa using h)]
    constructor
    · intro hi
      exact Or.inl ⟨h, hi⟩
    · rintro (⟨_, hi⟩ | ⟨r, hr, hp, hc, hd, _⟩)
      · exact hi
      · exact absurd ((hwf r hr).mpr (hp.trans (h.trans hc.symm)))
          (Nat.pos_iff_ne_zero.mp hd)
  · rw [if_neg (by simpa using h)]
    simp only [List.any_eq_true, Bool.and_eq_true, beq_iff_eq, bne_iff_ne]
    constructor
    · rintro ⟨r, hr, ⟨hp, hc⟩, hrid⟩
      refine Or.inr ⟨r, hr, hp, hc, ?_, hrid⟩
      rcases Nat.eq_zero_or_pos r.depth with h0 | hpos
      · exact absurd ((hp.symm.trans ((hwf r hr).mp h0)).trans hc) h
      · exact hpos
    · rintro (⟨he, _⟩ | ⟨r, hr, hp, hc, _, hrid⟩)
      · exact absurd he h
      · exact ⟨r, hr, ⟨hp, hc⟩, hrid⟩

/-- Witness for `c6_is_descendant_iff` at a concrete input. -/
theorem c6_is_descendant_iff_witness :
    (∀ r ∈ [(⟨9, 1, 3, 1⟩ : IRow)], r.depth = 0 ↔ r.parent = r.child) ∧
    (is_descendant_of [⟨9, 1, 3, 1⟩] 3 1 false = true ↔
      (1 = 3 ∧ false = true) ∨
      ∃ r ∈ [(⟨9, 1, 3, 1⟩ : IRow)], r.parent = 1 ∧ r.child = 3 ∧
        0 < r.depth ∧ r.rid ≠ 3) :=
  ⟨by decide, c6_is_descendant_iff [⟨9, 1, 3, 1⟩] 3 1 false (by decide)⟩

/-! Helper lemmas for `prepopulate`. -/

theorem adjKeys_appendChild (acc : Adjacency) (p c : Nat) :
    adjKeys (appendChild acc p c) = adjKeys acc := by
  induction acc with
  | nil => rfl
  | cons e es ih =>
      simp only [appendChild, List.map_cons, adjKeys] at ih ⊢
      rw [ih]
      congr 1
      split <;> rfl

theorem childUnder_appendChild {acc : Adjacency} {q cc : Nat} (p c : Nat)
    (h : childUnder acc q cc) : childUnder (appendChild acc p c) q cc := by
  obtain ⟨e, he, hq, hcc⟩ := h
  refine ⟨if e.1 == p then (e.1, e.2 ++ [c]) else e,
    List.mem_map_of_mem _ he, ?_, ?_⟩
  · split
    · exact hq
    · exact hq
  · split
    · exact List.mem_append_left _ hcc
    · exact hcc

theorem childUnder_appendChild_self (acc : Adjacency) (p c : Nat)
    (h : p ∈ adjKeys acc) : childUnder (appendChild acc p c) p c := by
  obtain ⟨e, he, hp⟩ := List.mem_map.mp h
  refine ⟨(e.1, e.2 ++ [c]), ?_, hp,
    List.mem_append_right _ (List.mem_singleton.mpr rfl)⟩
  have heq : (if e.1 == p then (e.1, e.2 ++ [c]) else e) = (e.1, e.2 ++ [c]) := by
    rw [if_pos (beq_iff_eq.mpr hp)]
  rw [← heq]
  exact List.mem_map_of_mem _ he

theorem entry_nil_appendChild {acc : Adjacency} {k : Nat} (p c : Nat)
    (h : (k, ([] : List Nat)) ∈ acc) (hk : k ≠ p) :
    (k, ([] : List Nat)) ∈ appendChild acc p c := by
  have hmem := List.mem_map_of_mem
    (fun (e : Nat × List Nat) => if e.1 == p then (e.1, e.2 ++ [c]) else e) h
  simpa [appendChild, hk] using hmem

theorem any_key_iff (acc : Adjacency) (p : Nat) :
    acc.any (fun e => e.1 == p) = true ↔ p ∈ adjKeys acc := by
  simp only [List.any_eq_true, beq_iff_eq, adjKeys, List.mem_map]

theorem mem_dedup_go (ks : List Nat) (acc : List Nat) (k : Nat) :
    (k ∈ ks.foldl (fun a x => if x ∈ a then a else a ++ [x]) acc) ↔
      k ∈ acc ∨ k ∈ ks := by
  induction ks generalizing acc with
  | nil => simp
  | cons a as ih =>
      rw [List.foldl_cons, ih, List.mem_cons]
      by_cases ha : a ∈ acc
      · rw [if_pos ha]
        constructor
        · rintro (h | h)
          · exact Or.inl h
          · exact Or.inr (Or.inr h)
        · rintro (h | h | h)
          · exact Or.inl h
          · exact Or.inl (h ▸ ha)
          · exact Or.inr h
      · rw [if_neg ha]
        simp only [List.mem_append, List.mem_singleton]
        tauto

theorem mem_dedupKeys (ks : List Nat) (k : Nat) :
    k ∈ dedupKeys ks ↔ k ∈ ks := by
  unfold dedupKeys
  rw [mem_dedup_go]
  simp

/-- The invariant run of the `prepopulate` append loop: when every
remaining descendant's parent pk is among the accumulator's keys, the
loop succeeds, preserves the key list and the recorded children, records
every descendant under its parent's key, and leaves keys nobody points at
with their empty child list. -/
theorem prepopulate_go_spec (l : List DNode) (acc : Adjacency)
    (h : ∀ d ∈ l, ∃ p, d.parent_pk = some p ∧ p ∈ adjKeys acc) :
    ∃ m, prepopulate_go acc l = .ok m ∧
      adjKeys m = adjKeys acc ∧
      (∀ p c, childUnder acc p c → childUnder m p c) ∧
      (∀ d ∈ l, ∀ p, d.parent_pk = some p → childUnder m p d.pk) ∧
      (∀ k, (k, ([] : List Nat)) ∈ acc → (∀ d ∈ l, d.parent_pk ≠ some k) →
        (k, ([] : List Nat)) ∈ m) := by
  induction l generalizing acc with
  | nil =>
      exact ⟨acc, rfl, rfl, fun _ _ hc => hc,
        fun d hd => absurd hd (List.not_mem_nil d),
        fun k hk _ => hk⟩
  | cons d ds ih =>
      obtain ⟨p, hp, hpk⟩ := h d (List.mem_cons_self d ds)
      have hany : acc.any (fun e => e.1 == p) = true := (any_key_iff acc p).mpr hpk
      have hkeys' : adjKeys (appendChild acc p d.pk) = adjKeys acc :=
        adjKeys_appendChild acc p d.pk
      obtain ⟨m, hm, hk, hmono, hlist, hnil⟩ :=
        ih (appendChild acc p d.pk) (fun d' hd' => by
          obtain ⟨p', h1, h2⟩ := h d' (List.mem_cons_of_mem d hd')
          exact ⟨p', h1, hkeys' ▸ h2⟩)
      have hstep : prepopulate_go acc (d :: ds) = prepopulate_go (appendChild acc p d.pk) ds := by
        simp only [prepopulate_go, hp, hany, if_true]
      refine ⟨m, hstep.trans hm, hk.trans hkeys', ?_, ?_, ?_⟩
      · intro q cc hq
        exact hmono q cc (childUnder_appendChild p d.pk hq)
      · intro d' hd' p' hp'
        rcases List.mem_cons.mp hd' with h1 | h2
        · subst h1
          have hpp : p' = p := by
            rw [hp] at hp'
            exact (Option.some.injEq _ _ ▸ hp').symm ▸ rfl
          subst hpp
          exact hmono p' d'.pk (childUnder_appendChild_self acc p' d'.pk hpk)
        · exact hlist d' h2 p' hp'
      · intro k hkmem hno
        have hkp : k ≠ p := by
          intro hkp
          exact hno d (List.mem_cons_self d ds) (hkp ▸ hp)
        exact hnil k (entry_nil_appendChild p d.pk hkmem hkp)
          (fun d' hd' => hno d' (List.mem_cons_of_mem d hd'))

/-- Claim C9, counterexample: a supplied descendant (pk 2) whose parent id
99 matches no map entry makes `prepopulate` fail on
`assert descendant._closure_parent_pk in hashobjs` — it is not defaulted
to a child of the node. -/
theorem c9_counterexample :
    prepopulate 1 [⟨2, some 99⟩] = .error () := by
  exact rfl

/-- Claim C9 (amended): provided every supplied descendant's parent id
matches a map key, `prepopulate` succeeds and builds an adjacency map
whose keys are exactly the supplied descendants plus the node itself
(childless keys keeping their empty list), with each descendant listed
under the key equal to its parent id; a descendant whose parent id
matches no entry triggers an assertion failure instead of being defaulted
to a child of the node. -/
theorem c9_prepopulate (self_pk : Nat) (objs : List DNode)
    (h : ∀ d ∈ objs, ∃ p, d.parent_pk = some p ∧ p ∈ hashKeys self_pk objs) :
    ∃ m, prepopulate self_pk objs = .ok m ∧
      (∀ k, k ∈ adjKeys m ↔ ((∃ d ∈ objs, d.pk = k) ∨ k = self_pk)) ∧
      (∀ d ∈ objs, ∀ p, d.parent_pk = some p → childUnder m p d.pk) ∧
      (∀ k ∈ hashKeys self_pk objs, (∀ d ∈ objs, d.parent_pk ≠ some k) →
        (k, ([] : List Nat)) ∈ m) := by
  have hinit_keys :
      adjKeys ((hashKeys self_pk objs).map (fun k => (k, ([] : List Nat)))) =
        hashKeys self_pk objs := by
    induction hashKeys self_pk objs with
    | nil => rfl
    | cons a as ih => simpa [adjKeys] using ih
  obtain ⟨m, hm, hk, _, hlist, hnil⟩ := prepopulate_go_spec objs
    ((hashKeys self_pk objs).map (fun k => (k, ([] : List Nat))))
    (fun d hd => by
      rw [hinit_keys]
      exact h d hd)
  have hkeys : adjKeys m = hashKeys self_pk objs := hk.trans hinit_keys
  refine ⟨m, hm, ?_, hlist, ?_⟩
  · intro k
    rw [hkeys]
    unfold hashKeys
    rw [mem_dedupKeys, List.mem_append, List.mem_singleton, List.mem_map]
  · intro k hkmem hno
    exact hnil k (List.mem_map_of_mem (fun k => (k, ([] : List Nat))) hkmem) hno

/-- Witness for `c9_prepopulate` at a concrete input: node 1 with the
single preloaded descendant 2 whose parent is 1. -/
theorem c9_prepopulate_witness :
    ∃ m, prepopulate 1 [⟨2, some 1⟩] = .ok m ∧ childUnder m 1 2 := by
  obtain ⟨m, hm, _, hlist, _⟩ := c9_prepopulate 1 [⟨2, some 1⟩]
    (by
      intro d hd
      obtain rfl := List.mem_singleton.mp hd
      exact ⟨1, rfl, by decide⟩)
  exact ⟨m, hm, hlist ⟨2, some 1⟩ (List.mem_singleton.mpr rfl) 1 rfl⟩

end ClosureTree
